import Mathlib

/-!
Verification development for the PAM storage engine's read-sharder and index
readers (package `pamutil` of the grailbio PAM columnar format).

The sharder core (`GenerateReadShards`, `readAndSubsetIndexes`,
`validateFieldIndex`, `readFieldIndex`, `ReadShardIndex`) is translated from
the Go sources.  The biopb coordinate algebra (`Coord.Compare`, `LT`, `GT`,
`Min`, `ValidateCoordRange`, `BlockIntersectsRange`) and the shard-index
constants are not part of the given sources (only their callers and tests
are), so they are modelled from the specification; the in-repo test vectors
are re-checked against the model below.

Go `float64` arithmetic in the sharder (the blocks-per-shard target and the
approximate byte estimate) is modelled exactly: Go's float-to-int conversion
truncates toward zero, and truncating the exact rational
(len+1)*totalBlocks/nShards (resp. seqBytes*totalBytes/sampledSize) equals
the truncating integer division `Int.tdiv` of the products, which is how the
threshold is written here.  On the inputs of the concrete theorems below the
float computation is exact, so the two agree; the general theorems do not
depend on the value of the threshold.
Go `log.Panicf` terminates the process; it is modelled as an `Except.error`
outcome, as is an error return.
-/

namespace PamVerify

/-- Modelled from the spec: `InfinityRefID` is the upper-sentinel reference id
(rendered `-` in filenames, parsed as `-1` in the repository's path tests). -/
def InfinityRefID : Int := -1

/-- Modelled from the spec: `UnmappedRefID` is the reference id of unmapped
reads; it sorts after every real reference id and before `InfinityRefID`. -/
def UnmappedRefID : Int := -2

/-- A genomic record coordinate `(refid, pos, seq)` (biopb.Coord). -/
structure Coord where
  RefId : Int
  Pos : Int
  Seq : Int
  deriving DecidableEq, Repr

/-- Modelled from the spec: the reference-id order — real refids ascending,
then `UNMAPPED`, then `INFINITY` as maximum. -/
def ltRefId (a b : Int) : Bool :=
  if a = b then false
  else if a = InfinityRefID then false
  else if b = InfinityRefID then true
  else if a = UnmappedRefID then false
  else if b = UnmappedRefID then true
  else decide (a < b)

/-- Modelled from the spec: `Coord.Compare`, the lexicographic order on
`(refid, pos, seq)` using the sentinel-aware refid order. -/
def Coord.Compare (a b : Coord) : Int :=
  if a.RefId ≠ b.RefId then (if ltRefId a.RefId b.RefId then -1 else 1)
  else if a.Pos ≠ b.Pos then (if a.Pos < b.Pos then -1 else 1)
  else if a.Seq ≠ b.Seq then (if a.Seq < b.Seq then -1 else 1)
  else 0

/-- Modelled from the spec: `Coord.LT`. -/
def Coord.LT (a b : Coord) : Bool := decide (a.Compare b < 0)

/-- Modelled from the spec: `Coord.GT`. -/
def Coord.GT (a b : Coord) : Bool := decide (0 < a.Compare b)

/-- Modelled from the spec: `Coord.GE`. -/
def Coord.GE (a b : Coord) : Bool := decide (0 ≤ a.Compare b)

/-- Modelled from the spec: `Coord.Min` returns the smaller coordinate. -/
def Coord.Min (a b : Coord) : Coord := if a.LT b then a else b

/-- A half-open coordinate range `[Start, Limit)` (biopb.CoordRange). -/
structure CoordRange where
  Start : Coord
  Limit : Coord
  deriving DecidableEq, Repr

/-- Modelled from the spec: `CoordRange.Contains`. -/
def CoordRange.Contains (r : CoordRange) (a : Coord) : Bool :=
  a.GE r.Start && a.LT r.Limit

/-- Modelled from the spec: `CoordRange.Intersects`. -/
def CoordRange.Intersects (r r1 : CoordRange) : Bool :=
  r.Start.LT r1.Limit && r1.Start.LT r.Limit

/-- Modelled from the spec: `BlockIntersectsRange` is true iff
`[blockStart, blockEnd]` (end inclusive) meets `[r.Start, r.Limit)`. -/
def BlockIntersectsRange (blockStart blockEnd : Coord) (r : CoordRange) : Bool :=
  blockStart.LT r.Limit && blockEnd.GE r.Start

/-- Modelled from the spec: the universal range `[(0,0,0), (INFINITY,0,0))`. -/
def UniversalRange : CoordRange :=
  { Start := ⟨0, 0, 0⟩, Limit := ⟨InfinityRefID, 0, 0⟩ }

/-- Modelled from the spec: `ValidateCoordRange` normalizes the zero range to
the universal range and fails when the limit is below the start. -/
def ValidateCoordRange (r : CoordRange) : Except String CoordRange :=
  if r = { Start := ⟨0, 0, 0⟩, Limit := ⟨0, 0, 0⟩ } then .ok UniversalRange
  else if r.Limit.LT r.Start then .error "invalid coordinate range"
  else .ok r

/-- One entry of a per-field block index (biopb.PAMBlockIndexEntry). -/
structure PAMBlockIndexEntry where
  StartAddr : Coord
  EndAddr : Coord
  FileOffset : Nat
  NumRecords : Nat
  deriving DecidableEq, Repr

/-- A per-field block table (biopb.PAMFieldIndex, block list part). -/
structure PAMFieldIndex where
  Blocks : List PAMBlockIndexEntry
  deriving DecidableEq, Repr

/-- Modelled from the spec: the 64-bit magic number identifying a shard-index
file.  Its concrete value is not under the given sources; only equality with
it matters for the claims. -/
def ShardIndexMagic : Nat := 0x725c7226be794c60

/-- Modelled from the spec: the PAM format version constant gating format
evolution.  Its concrete value is not under the given sources. -/
def DefaultVersion : Nat := 1

/-- A shard-index record (biopb.PAMShardIndex). -/
structure PAMShardIndex where
  Magic : Nat
  Version : Nat
  Range : CoordRange
  EncodedBamHeader : List Nat
  deriving DecidableEq, Repr

/-- A parsed PAM file name (pamutil.FileInfo, the parts the sharder uses). -/
structure FileInfo where
  Dir : String
  Range : CoordRange
  deriving DecidableEq, Repr

/-- Per-rowshard data derived from one PAM field index (pamutil.ShardIndex). -/
structure ShardIndex where
  Range : CoordRange
  ApproxFileBytes : Int
  Blocks : List PAMBlockIndexEntry
  deriving DecidableEq, Repr

/-- Options to GenerateReadShards (pamutil.GenerateReadShardsOpts).  Defaults
are the Go zero values. -/
structure GenerateReadShardsOpts where
  Range : CoordRange := { Start := ⟨0, 0, 0⟩, Limit := ⟨0, 0, 0⟩ }
  SplitMappedCoords : Bool := false
  SplitUnmappedCoords : Bool := false
  AlwaysSplitMappedAndUnmappedCoords : Bool := false
  BytesPerShard : Int := 0
  NumShards : Int := 0
  deriving DecidableEq, Repr

/-- The block-scanning loop of validateFieldIndex. -/
def validateBlocks : List PAMBlockIndexEntry → Except String Unit
  | [] => .ok ()
  | block :: rest =>
    if block.NumRecords = 0 then .error "corrupt block index"
    else validateBlocks rest

/-- validateFieldIndex checks every block of a field index for a nonzero
record count (first corrupt block reported). -/
def validateFieldIndex (index : PAMFieldIndex) : Except String Unit :=
  validateBlocks index.Blocks

/-- The observable outcomes of the file operations performed by
readFieldIndex: open, trailer fetch, unmarshal, recordio finish, close. -/
structure FieldIndexFile where
  openRes : Except String Unit
  trailer : List Nat
  unmarshalRes : Except String PAMFieldIndex
  finishErr : Option String
  closeErr : Option String

/-- The deferred file.CloseAndReport: a close failure replaces a nil error. -/
def goDeferClose {α : Type} (closeErr : Option String) :
    Except String α → Except String α
  | .ok v =>
    match closeErr with
    | some e => .error e
    | none => .ok v
  | .error e => .error e

/-- readFieldIndex reads the trailer of a field file, unmarshals the field
index and validates it; a recordio finish error surfaces only when no earlier
error occurred. -/
def readFieldIndex (f : FieldIndexFile) : Except String PAMFieldIndex :=
  match f.openRes with
  | .error e => .error e
  | .ok _ =>
    goDeferClose f.closeErr
      (if f.trailer.length = 0 then
        .error "readfieldindex: file does not contain an index"
      else
        match f.unmarshalRes with
        | .error e => .error e
        | .ok index =>
          match validateFieldIndex index, f.finishErr with
          | .error e, _ => .error e
          | .ok _, some e => .error e
          | .ok _, none => .ok index)

/-- The observable outcomes of the file operations performed by
ReadShardIndex: open, scan, unmarshal, final scanner error, close. -/
structure ShardIndexFile where
  openRes : Except String Unit
  scanOk : Bool
  scanErr : String
  unmarshalRes : Except String PAMShardIndex
  rioErr : Option String
  closeErr : Option String

/-- ReadShardIndex decodes the single framed blob of a shard-index file and
verifies its magic number and version. -/
def ReadShardIndex (f : ShardIndexFile) : Except String PAMShardIndex :=
  match f.openRes with
  | .error e => .error e
  | .ok _ =>
    goDeferClose f.closeErr
      (if !f.scanOk then .error ("readshardindex: " ++ f.scanErr)
      else
        match f.unmarshalRes with
        | .error e => .error e
        | .ok index =>
          if index.Magic ≠ ShardIndexMagic then
            .error "readshardindex: wrong index version"
          else if index.Version ≠ DefaultVersion then
            .error "readshardindex: wrong PAM version"
          else
            match f.rioErr with
            | some e => .error e
            | none => .ok index)

/-- The sampled-field selection loop of readAndSubsetIndexes: for one index
file it returns the name of the largest field, that field's size (init -1),
and the total size over all fields. -/
def pickSampledField (sizeOf : String → Int) (fields : List String) :
    String × Int × Int :=
  fields.foldl
    (fun acc field =>
      let size := sizeOf field
      let sf := if size > acc.2.1 then field else acc.1
      let sfs := if size > acc.2.1 then size else acc.2.1
      (sf, sfs, acc.2.2 + size))
    ("", -1, 0)

/-- intersectIndexBlocks keeps the blocks that intersect the requested
range. -/
def intersectIndexBlocks (blocks : List PAMBlockIndexEntry)
    (requestedRange : CoordRange) : List PAMBlockIndexEntry :=
  blocks.filter (fun block =>
    BlockIntersectsRange block.StartAddr block.EndAddr requestedRange)

/-- readAndSubsetIndexes reads, for each index file, the block index of its
largest field, keeps the blocks intersecting `recRange`, and estimates the
byte cost of the kept span across all fields.  `sizeOf` is the stat oracle
(fieldFileSize, already 0 on a stat failure) and `readIdx` the field-index
read oracle.  A failed index read is a log.Panicf in the source and is
modelled as an error outcome; a zero sampled-field size with intersecting
blocks is an error return. -/
def readAndSubsetIndexes (sizeOf : FileInfo → String → Int)
    (readIdx : FileInfo → String → Except String PAMFieldIndex)
    (files : List FileInfo) (recRange : CoordRange) (fields : List String) :
    Except String (List ShardIndex) :=
  match files with
  | [] => .ok []
  | indexFile :: rest =>
    let picked := pickSampledField (sizeOf indexFile) fields
    let sampledField := picked.1
    let sampledFieldSize := picked.2.1
    let totalFileBytes := picked.2.2
    match readIdx indexFile sampledField with
    | .error e => .error ("failed to read index: " ++ e)
    | .ok index =>
      match intersectIndexBlocks index.Blocks recRange with
      | [] => readAndSubsetIndexes sizeOf readIdx rest recRange fields
      | b0 :: brest =>
        let blocks := b0 :: brest
        let minFileOffset := b0.FileOffset
        let maxFileOffset := (List.getLastD brest b0).FileOffset
        if minFileOffset > maxFileOffset then .error "corrupt offset"
        else
          let seqBytes : Int := (maxFileOffset : Int) - (minFileOffset : Int)
          if sampledFieldSize ≤ 0 then
            .error "readandsubsetindexes: seq file size is zero"
          else
            let rs : ShardIndex :=
              { Range := indexFile.Range
                ApproxFileBytes :=
                  (seqBytes * totalFileBytes).tdiv sampledFieldSize
                Blocks := blocks }
            match readAndSubsetIndexes sizeOf readIdx rest recRange fields with
            | .error e => .error e
            | .ok tail => .ok (rs :: tail)

/-- The sentinel coordinate at which mapped records end and unmapped records
begin. -/
def unmappedStart : Coord := ⟨UnmappedRefID, 0, 0⟩

/-- The sharder's accumulation state: the output ranges built so far, the
start of the next output range, and a ghost log of the block-level split
boundaries that were emitted (pairs of previous block end address and split
address).  The log does not influence the computed bounds. -/
structure SharderState where
  bounds : List CoordRange
  prevLimit : Coord
  blockLog : List (Coord × Coord)
  deriving DecidableEq, Repr

/-- The appendShard closure of GenerateReadShards: add the shard
`[prevLimit, limit)`, splitting it at the mapped/unmapped sentinel when
requested; a decreasing limit is a log.Panicf (modelled as an error). -/
def appendShard (opts : GenerateReadShardsOpts) (limit : Coord)
    (st : SharderState) : Except String SharderState :=
  let cmp := limit.Compare st.prevLimit
  if cmp < 0 then .error "limit decreased"
  else if cmp = 0 then .ok st
  else if opts.AlwaysSplitMappedAndUnmappedCoords &&
      st.prevLimit.LT unmappedStart && limit.GT unmappedStart then
    .ok { st with
          bounds := st.bounds ++
            [{ Start := st.prevLimit, Limit := unmappedStart },
             { Start := unmappedStart, Limit := limit }]
          prevLimit := limit }
  else
    .ok { st with
          bounds := st.bounds ++ [{ Start := st.prevLimit, Limit := limit }]
          prevLimit := limit }

/-- The coord-run check of the sharder's block loop: a proposed split at
`limitAddr` is skipped when the previous block's end shares `(refid, pos)`
with it and the corresponding split flag is off. -/
def skipSplit (opts : GenerateReadShardsOpts) (prevEnd limitAddr : Coord) :
    Bool :=
  (prevEnd.RefId == limitAddr.RefId && prevEnd.Pos == limitAddr.Pos) &&
  ((!(prevEnd.RefId == UnmappedRefID) && !opts.SplitMappedCoords) ||
   (prevEnd.RefId == UnmappedRefID && !opts.SplitUnmappedCoords))

/-- The inner block loop of GenerateReadShards for one index, starting from
the second block (`prevBlock` is the block before `blocks`; `nBlocks` has
already counted it).  When the running block count exceeds the target a
split is proposed at the current block's start address. -/
def processIndexBlocks (opts : GenerateReadShardsOpts)
    (totalBlocks nShards : Int) :
    PAMBlockIndexEntry → List PAMBlockIndexEntry → Nat → SharderState →
    Except String (SharderState × Nat)
  | _, [], nBlocks, st => .ok (st, nBlocks)
  | prevBlock, block :: rest, nBlocks, st =>
    if (nBlocks : Int) >
        (((st.bounds.length : Int) + 1) * totalBlocks).tdiv nShards then
      let limitAddr := block.StartAddr
      if skipSplit opts prevBlock.EndAddr limitAddr then
        processIndexBlocks opts totalBlocks nShards block rest (nBlocks + 1) st
      else
        match appendShard opts limitAddr st with
        | .error e => .error e
        | .ok st1 =>
          processIndexBlocks opts totalBlocks nShards block rest (nBlocks + 1)
            { st1 with
              blockLog := st1.blockLog ++ [(prevBlock.EndAddr, limitAddr)] }
    else
      processIndexBlocks opts totalBlocks nShards block rest (nBlocks + 1) st

/-- The outer loop of GenerateReadShards: walk the indexes in order, propose
block-level splits, and close every index at its rowshard limit capped by
the query limit. -/
def processIndexes (opts : GenerateReadShardsOpts)
    (totalBlocks nShards : Int) (qLimit : Coord) :
    List ShardIndex → Nat → SharderState → Except String SharderState
  | [], _, st => .ok st
  | index :: rest, nBlocks, st =>
    let step : Except String (SharderState × Nat) :=
      match index.Blocks with
      | [] => .ok (st, nBlocks)
      | b0 :: brest =>
        processIndexBlocks opts totalBlocks nShards b0 brest (nBlocks + 1) st
    match step with
    | .error e => .error e
    | .ok (st1, nBlocks1) =>
      match appendShard opts (index.Range.Limit.Min qLimit) st1 with
      | .error e => .error e
      | .ok st2 =>
        processIndexes opts totalBlocks nShards qLimit rest nBlocks1 st2

/-- The core of GenerateReadShards after range validation, for a nonempty
index list: compute the shard-count target and run the block walk.  `nCPU`
stands for runtime.NumCPU().  Returns the full final state including the
ghost block-split log. -/
def GenerateReadShardsLoop (nCPU : Nat) (opts : GenerateReadShardsOpts)
    (indexes : List ShardIndex) : Except String SharderState :=
  let totalBlocks : Nat := (indexes.map (fun i => i.Blocks.length)).sum
  let totalBytes : Int := (indexes.map (fun i => i.ApproxFileBytes)).sum
  let nShards : Int :=
    if opts.BytesPerShard > 0 then totalBytes.tdiv opts.BytesPerShard
    else if opts.NumShards > 0 then opts.NumShards
    else (nCPU * 4 : Nat)
  processIndexes opts (totalBlocks : Int) nShards opts.Range.Limit indexes 0
    { bounds := [], prevLimit := opts.Range.Start, blockLog := [] }

/-- GenerateReadShards: validate and normalize the query range; with no
intersecting index return the whole query range; otherwise run the block
walk and return the accumulated bounds. -/
def GenerateReadShards (nCPU : Nat) (opts : GenerateReadShardsOpts)
    (indexes : List ShardIndex) : Except String (List CoordRange) :=
  match ValidateCoordRange opts.Range with
  | .error e => .error e
  | .ok rng =>
    let opts1 := { opts with Range := rng }
    if indexes.isEmpty then .ok [rng]
    else
      match GenerateReadShardsLoop nCPU opts1 indexes with
      | .error e => .error e
      | .ok st => .ok st.bounds

/-!  Re-checks of the modelled coordinate algebra against the concrete test
vectors found in the repository's pamutil_test.go. -/

example : Coord.LT ⟨0, 1, 0⟩ ⟨0, 1, 0⟩ = false := by decide

example : Coord.GE ⟨0, 1, 0⟩ ⟨0, 1, 0⟩ = true := by decide

example : Coord.LT ⟨0, 1, 0⟩ ⟨0, 2, 0⟩ = true := by decide

example : Coord.LT ⟨0, 2, 0⟩ ⟨InfinityRefID, 2, 0⟩ = true := by decide

example : Coord.LT ⟨0, 2, 0⟩ ⟨1, 2, 0⟩ = true := by decide

example : BlockIntersectsRange ⟨3, 2, 0⟩ ⟨10, 5, 0⟩ ⟨⟨10, 5, 0⟩, ⟨11, 0, 0⟩⟩ = true := by decide

example : BlockIntersectsRange ⟨3, 2, 0⟩ ⟨10, 5, 0⟩ ⟨⟨10, 6, 0⟩, ⟨11, 0, 0⟩⟩ = false := by decide

example : BlockIntersectsRange ⟨3, 2, 0⟩ ⟨10, 5, 0⟩ ⟨⟨3, 0, 0⟩, ⟨3, 2, 0⟩⟩ = false := by decide

example : BlockIntersectsRange ⟨3, 2, 0⟩ ⟨10, 5, 0⟩ ⟨⟨3, 0, 0⟩, ⟨3, 3, 0⟩⟩ = true := by decide

example : CoordRange.Intersects ⟨⟨3, 2, 0⟩, ⟨10, 5, 0⟩⟩ ⟨⟨10, 4, 0⟩, ⟨11, 0, 0⟩⟩ = true := by decide

example : CoordRange.Intersects ⟨⟨3, 2, 0⟩, ⟨10, 5, 0⟩⟩ ⟨⟨10, 5, 0⟩, ⟨11, 0, 0⟩⟩ = false := by decide

example : CoordRange.Contains ⟨⟨10, 20, 0⟩, ⟨15, 5, 0⟩⟩ ⟨10, 19, 0⟩ = false := by decide

example : CoordRange.Contains ⟨⟨10, 20, 0⟩, ⟨15, 5, 0⟩⟩ ⟨10, 20, 0⟩ = true := by decide

example : CoordRange.Contains ⟨⟨10, 20, 0⟩, ⟨15, 5, 0⟩⟩ ⟨15, 4, 0⟩ = true := by decide

example : CoordRange.Contains ⟨⟨10, 20, 0⟩, ⟨15, 5, 0⟩⟩ ⟨15, 5, 0⟩ = false := by decide

/-!  Basic facts about the modelled coordinate order. -/

set_option maxRecDepth 8000

theorem ltRefId_asymm {a b : Int} (hab : ltRefId a b = true) :
    ltRefId b a = false := by
  simp only [ltRefId, InfinityRefID, UnmappedRefID] at *
  split_ifs at * <;>
    simp only [decide_eq_true_eq, decide_eq_false_iff_not] at * <;>
    omega

theorem ltRefId_total {a b : Int} (h : a ≠ b) :
    ltRefId a b = true ∨ ltRefId b a = true := by
  simp only [ltRefId, InfinityRefID, UnmappedRefID]
  split_ifs <;>
    simp only [decide_eq_true_eq, Bool.false_eq_true, false_or, or_false,
      or_true, true_or, eq_self_iff_true] <;>
    omega

theorem Coord.compare_self (a : Coord) : a.Compare a = 0 := by
  simp [Coord.Compare]

theorem Coord.compare_eq_zero_iff {a b : Coord} : a.Compare b = 0 ↔ a = b := by
  constructor
  · intro h
    simp only [Coord.Compare] at h
    split_ifs at h <;> simp_all
    cases a; cases b; simp_all
  · rintro rfl; exact a.compare_self

theorem Coord.compare_neg_iff {a b : Coord} :
    a.Compare b < 0 ↔ 0 < b.Compare a := by
  rcases eq_or_ne a.RefId b.RefId with hr | hr
  · simp only [Coord.Compare, hr]
    split_ifs <;> omega
  · have hr1 : b.RefId ≠ a.RefId := fun h => hr h.symm
    simp only [Coord.Compare]
    rw [if_pos hr, if_pos hr1]
    rcases ltRefId_total hr with h1 | h1
    · have h2 := ltRefId_asymm h1
      rw [if_pos h1, if_neg (by simp [h2])]
      omega
    · have h2 := ltRefId_asymm h1
      rw [if_pos h1, if_neg (by simp [h2])]
      omega

theorem Coord.LT_irrefl (a : Coord) : a.LT a = false := by
  simp [Coord.LT, a.compare_self]

theorem Coord.GT_eq_LT (a b : Coord) : a.GT b = b.LT a := by
  simp only [Coord.GT, Coord.LT, decide_eq_decide]
  exact (@Coord.compare_neg_iff b a).symm

/-- Chained s rs e: the ranges rs laid end to end lead from s to e — the
first range starts at s, each range starts where the previous one ends, and
the last range ends at e (for an empty list, s = e). -/
def Chained : Coord → List CoordRange → Coord → Prop
  | s, [], e => s = e
  | s, r :: rest, e => r.Start = s ∧ Chained r.Limit rest e

theorem chained_append {s e : Coord} {bs : List CoordRange}
    (h : Chained s bs e) (r : CoordRange) (hr : r.Start = e) :
    Chained s (bs ++ [r]) r.Limit := by
  induction bs generalizing s with
  | nil =>
    simp only [Chained] at h
    exact ⟨hr.trans h.symm, rfl⟩
  | cons r0 rest ih =>
    exact ⟨h.1, ih h.2⟩

theorem chained_chain {s e : Coord} {bs : List CoordRange}
    (h : Chained s bs e) :
    List.Chain' (fun a b => a.Limit = b.Start) bs := by
  induction bs generalizing s with
  | nil => simp
  | cons r0 rest ih =>
    cases rest with
    | nil => simp
    | cons r1 rest1 =>
      exact List.Chain'.cons h.2.1.symm (ih h.2)

theorem chained_ne_nil {s e : Coord} {bs : List CoordRange}
    (h : Chained s bs e) (hne : s ≠ e) : bs ≠ [] := by
  intro hnil
  subst hnil
  exact hne h

theorem appendShard_ok_prevLimit {opts : GenerateReadShardsOpts}
    {limit : Coord} {st st1 : SharderState}
    (h : appendShard opts limit st = .ok st1) : st1.prevLimit = limit := by
  simp only [appendShard] at h
  split_ifs at h with h1 h2 h3
  · cases h
    exact (Coord.compare_eq_zero_iff.mp h2).symm
  · cases h; rfl
  · cases h; rfl

theorem appendShard_ok_blockLog {opts : GenerateReadShardsOpts}
    {limit : Coord} {st st1 : SharderState}
    (h : appendShard opts limit st = .ok st1) : st1.blockLog = st.blockLog := by
  simp only [appendShard] at h
  split_ifs at h <;> cases h <;> rfl

theorem appendShard_chained {opts : GenerateReadShardsOpts} {limit s : Coord}
    {st st1 : SharderState}
    (hc : Chained s st.bounds st.prevLimit)
    (h : appendShard opts limit st = .ok st1) :
    Chained s st1.bounds st1.prevLimit := by
  simp only [appendShard] at h
  split_ifs at h with h1 h2 h3
  · cases h; exact hc
  · cases h
    have hA := chained_append hc { Start := st.prevLimit, Limit := unmappedStart } rfl
    have hB := chained_append hA { Start := unmappedStart, Limit := limit } rfl
    simpa using hB
  · cases h
    have hA := chained_append hc { Start := st.prevLimit, Limit := limit } rfl
    simpa using hA

theorem appendShard_nonempty {opts : GenerateReadShardsOpts} {limit : Coord}
    {st st1 : SharderState}
    (hne : ∀ r ∈ st.bounds, r.Start.LT r.Limit = true)
    (h : appendShard opts limit st = .ok st1) :
    ∀ r ∈ st1.bounds, r.Start.LT r.Limit = true := by
  simp only [appendShard] at h
  split_ifs at h with h1 h2 h3
  · cases h; exact hne
  · cases h
    intro r hr
    dsimp only at hr
    simp only [List.mem_append, List.mem_cons, List.not_mem_nil, or_false] at hr
    simp only [Bool.and_eq_true] at h3
    rcases hr with hr | hr | hr
    · exact hne r hr
    · subst hr
      exact h3.1.2
    · subst hr
      have hgt := h3.2
      rw [Coord.GT_eq_LT] at hgt
      exact hgt
  · cases h
    intro r hr
    dsimp only at hr
    simp only [List.mem_append, List.mem_cons, List.not_mem_nil, or_false] at hr
    rcases hr with hr | hr
    · exact hne r hr
    · subst hr
      simp only [Coord.LT, decide_eq_true_eq]
      exact Coord.compare_neg_iff.mpr (by omega)

theorem appendShard_no_straddle {opts : GenerateReadShardsOpts} {limit : Coord}
    {st st1 : SharderState}
    (halways : opts.AlwaysSplitMappedAndUnmappedCoords = true)
    (hns : ∀ r ∈ st.bounds,
      ¬(r.Start.LT unmappedStart = true ∧ unmappedStart.LT r.Limit = true))
    (h : appendShard opts limit st = .ok st1) :
    ∀ r ∈ st1.bounds,
      ¬(r.Start.LT unmappedStart = true ∧ unmappedStart.LT r.Limit = true) := by
  simp only [appendShard] at h
  split_ifs at h with h1 h2 h3
  · cases h; exact hns
  · cases h
    intro r hr
    dsimp only at hr
    simp only [List.mem_append, List.mem_cons, List.not_mem_nil, or_false] at hr
    rcases hr with hr | hr | hr
    · exact hns r hr
    · subst hr
      intro hcon
      have := hcon.2
      rw [Coord.LT_irrefl] at this
      exact Bool.false_ne_true this
    · subst hr
      intro hcon
      have := hcon.1
      rw [Coord.LT_irrefl] at this
      exact Bool.false_ne_true this
  · cases h
    intro r hr
    dsimp only at hr
    simp only [List.mem_append, List.mem_cons, List.not_mem_nil, or_false] at hr
    rcases hr with hr | hr
    · exact hns r hr
    · subst hr
      intro hcon
      apply h3
      simp only [Bool.and_eq_true]
      refine ⟨⟨halways, hcon.1⟩, ?_⟩
      rw [Coord.GT_eq_LT]
      exact hcon.2

theorem processIndexBlocks_inv (opts : GenerateReadShardsOpts)
    (totalBlocks nShards : Int) (P : SharderState → Prop)
    (hA : ∀ l st st1, P st → appendShard opts l st = .ok st1 → P st1)
    (hL : ∀ st pe la, P st → skipSplit opts pe la = false →
      P { st with blockLog := st.blockLog ++ [(pe, la)] }) :
    ∀ (rest : List PAMBlockIndexEntry) (prev : PAMBlockIndexEntry)
      (nB : Nat) (st st1 : SharderState) (nB1 : Nat), P st →
      processIndexBlocks opts totalBlocks nShards prev rest nB st =
        .ok (st1, nB1) →
      P st1 := by
  intro rest
  induction rest with
  | nil =>
    intro prev nB st st1 nB1 hP h
    simp only [processIndexBlocks, Except.ok.injEq, Prod.mk.injEq] at h
    rw [← h.1]
    exact hP
  | cons block rest ih =>
    intro prev nB st st1 nB1 hP h
    simp only [processIndexBlocks] at h
    split_ifs at h with hg hs
    · exact ih block (nB + 1) st st1 nB1 hP h
    · cases hap : appendShard opts block.StartAddr st with
      | error e => rw [hap] at h; cases h
      | ok st2 =>
        rw [hap] at h
        have hP2 : P st2 := hA _ _ _ hP hap
        have hs2 : skipSplit opts prev.EndAddr block.StartAddr = false :=
          Bool.not_eq_true _ ▸ by simpa using hs
        exact ih block (nB + 1) _ st1 nB1 (hL _ _ _ hP2 hs2) h
    · exact ih block (nB + 1) st st1 nB1 hP h

theorem processIndexes_inv (opts : GenerateReadShardsOpts)
    (totalBlocks nShards : Int) (qLimit : Coord) (P : SharderState → Prop)
    (hA : ∀ l st st1, P st → appendShard opts l st = .ok st1 → P st1)
    (hL : ∀ st pe la, P st → skipSplit opts pe la = false →
      P { st with blockLog := st.blockLog ++ [(pe, la)] }) :
    ∀ (idxs : List ShardIndex) (nB : Nat) (st st1 : SharderState), P st →
      processIndexes opts totalBlocks nShards qLimit idxs nB st = .ok st1 →
      P st1 := by
  intro idxs
  induction idxs with
  | nil =>
    intro nB st st1 hP h
    simp only [processIndexes, Except.ok.injEq] at h
    rw [← h]
    exact hP
  | cons index rest ih =>
    intro nB st st1 hP h
    simp only [processIndexes] at h
    cases hbl : index.Blocks with
    | nil =>
      rw [hbl] at h
      simp only at h
      cases hap : appendShard opts (index.Range.Limit.Min qLimit) st with
      | error e => rw [hap] at h; cases h
      | ok st2 =>
        rw [hap] at h
        exact ih _ _ _ (hA _ _ _ hP hap) h
    | cons b0 brest =>
      rw [hbl] at h
      simp only at h
      cases hpb : processIndexBlocks opts totalBlocks nShards b0 brest
          (nB + 1) st with
      | error e => rw [hpb] at h; cases h
      | ok p =>
        obtain ⟨stp, nbp⟩ := p
        rw [hpb] at h
        simp only at h
        have hP1 : P stp :=
          processIndexBlocks_inv opts totalBlocks nShards P hA hL brest b0
            (nB + 1) st stp nbp hP hpb
        cases hap : appendShard opts (index.Range.Limit.Min qLimit) stp with
        | error e => rw [hap] at h; cases h
        | ok st2 =>
          rw [hap] at h
          exact ih _ _ _ (hA _ _ _ hP1 hap) h

theorem processIndexes_prevLimit (opts : GenerateReadShardsOpts)
    (totalBlocks nShards : Int) (qLimit : Coord) :
    ∀ (idxs : List ShardIndex) (lastIdx : ShardIndex) (nB : Nat)
      (st st1 : SharderState), idxs.getLast? = some lastIdx →
      processIndexes opts totalBlocks nShards qLimit idxs nB st = .ok st1 →
      st1.prevLimit = lastIdx.Range.Limit.Min qLimit := by
  intro idxs
  induction idxs with
  | nil => intro lastIdx nB st st1 hl h; simp at hl
  | cons index rest ih =>
    intro lastIdx nB st st1 hl h
    simp only [processIndexes] at h
    cases hbl : index.Blocks with
    | nil =>
      rw [hbl] at h
      simp only at h
      cases hap : appendShard opts (index.Range.Limit.Min qLimit) st with
      | error e => rw [hap] at h; cases h
      | ok st2 =>
        rw [hap] at h
        cases rest with
        | nil =>
          simp only [List.getLast?_singleton, Option.some.injEq] at hl
          subst hl
          simp only [processIndexes, Except.ok.injEq] at h
          rw [← h]
          exact appendShard_ok_prevLimit hap
        | cons r rs =>
          rw [List.getLast?_cons_cons] at hl
          exact ih lastIdx _ _ _ hl h
    | cons b0 brest =>
      rw [hbl] at h
      simp only at h
      cases hpb : processIndexBlocks opts totalBlocks nShards b0 brest
          (nB + 1) st with
      | error e => rw [hpb] at h; cases h
      | ok p =>
        obtain ⟨stp, nbp⟩ := p
        rw [hpb] at h
        simp only at h
        cases hap : appendShard opts (index.Range.Limit.Min qLimit) stp with
        | error e => rw [hap] at h; cases h
        | ok st2 =>
          rw [hap] at h
          cases rest with
          | nil =>
            simp only [List.getLast?_singleton, Option.some.injEq] at hl
            subst hl
            simp only [processIndexes, Except.ok.injEq] at h
            rw [← h]
            exact appendShard_ok_prevLimit hap
          | cons r rs =>
            rw [List.getLast?_cons_cons] at hl
            exact ih lastIdx _ _ _ hl h

theorem skipSplit_false_mapped {opts : GenerateReadShardsOpts}
    {pe la : Coord} (hsm : opts.SplitMappedCoords = false)
    (hs : skipSplit opts pe la = false) :
    ¬(pe.RefId = la.RefId ∧ pe.Pos = la.Pos ∧ pe.RefId ≠ UnmappedRefID) := by
  rintro ⟨h1, h2, h3⟩
  simp [skipSplit, h1, h2, h3, hsm] at hs
  exact h3 (h1.trans hs.1)

theorem skipSplit_false_unmapped {opts : GenerateReadShardsOpts}
    {pe la : Coord} (hsu : opts.SplitUnmappedCoords = false)
    (hs : skipSplit opts pe la = false) :
    ¬(pe.RefId = la.RefId ∧ pe.Pos = la.Pos ∧ pe.RefId = UnmappedRefID) := by
  rintro ⟨h1, h2, h3⟩
  simp [skipSplit, h1, h2, h3, hsu] at hs
  exact hs.2 (h1.symm.trans h3)

theorem generateReadShards_ok_cases {nCPU : Nat}
    {opts : GenerateReadShardsOpts} {indexes : List ShardIndex}
    {bounds : List CoordRange} {rng : CoordRange}
    (hval : ValidateCoordRange opts.Range = .ok rng)
    (hne : indexes ≠ [])
    (hok : GenerateReadShards nCPU opts indexes = .ok bounds) :
    ∃ st, GenerateReadShardsLoop nCPU { opts with Range := rng } indexes =
        .ok st ∧ st.bounds = bounds := by
  simp only [GenerateReadShards] at hok
  rw [hval] at hok
  have hemp : indexes.isEmpty = false := by
    cases indexes with
    | nil => exact absurd rfl hne
    | cons a l => rfl
  rw [hemp] at hok
  simp only [Bool.false_eq_true, if_false] at hok
  cases hloop : GenerateReadShardsLoop nCPU { opts with Range := rng } indexes with
  | error e => rw [hloop] at hok; cases hok
  | ok st =>
    rw [hloop] at hok
    simp only [Except.ok.injEq] at hok
    exact ⟨st, rfl, hok⟩

theorem processLog_inv (opts : GenerateReadShardsOpts)
    (totalBlocks nShards : Int) (qLimit : Coord) (Q : Coord × Coord → Prop)
    (hQ : ∀ pe la, skipSplit opts pe la = false → Q (pe, la)) :
    ∀ (idxs : List ShardIndex) (nB : Nat) (st st1 : SharderState),
      (∀ p ∈ st.blockLog, Q p) →
      processIndexes opts totalBlocks nShards qLimit idxs nB st = .ok st1 →
      ∀ p ∈ st1.blockLog, Q p :=
  processIndexes_inv opts totalBlocks nShards qLimit
    (fun s => ∀ p ∈ s.blockLog, Q p)
    (fun _ s s1 hP hap => by
      have hbl := appendShard_ok_blockLog hap
      intro p hp
      rw [hbl] at hp
      exact hP p hp)
    (fun s pe la hP hs => by
      intro p hp
      simp only [List.mem_append, List.mem_cons, List.not_mem_nil,
        or_false] at hp
      rcases hp with hp | hp
      · exact hP p hp
      · exact hp ▸ hQ pe la hs)

/-- C5: for every input on which GenerateReadShards succeeds, the returned
list is contiguous — every pair of consecutive output ranges R, R1 satisfies
R.Limit = R1.Start. -/
theorem generateReadShards_contiguous (nCPU : Nat)
    (opts : GenerateReadShardsOpts) (indexes : List ShardIndex)
    (bounds : List CoordRange)
    (hok : GenerateReadShards nCPU opts indexes = .ok bounds) :
    List.Chain' (fun a b => a.Limit = b.Start) bounds := by
  cases hv : ValidateCoordRange opts.Range with
  | error e =>
    simp only [GenerateReadShards, hv] at hok
    cases hok
  | ok rng =>
    by_cases hne : indexes = []
    · subst hne
      simp only [GenerateReadShards, hv, List.isEmpty_nil, if_true,
        Except.ok.injEq] at hok
      rw [← hok]
      simp
    · obtain ⟨st, hloop, hb⟩ := generateReadShards_ok_cases hv hne hok
      simp only [GenerateReadShardsLoop] at hloop
      have hchain : Chained rng.Start st.bounds st.prevLimit :=
        processIndexes_inv _ _ _ _
          (fun s => Chained rng.Start s.bounds s.prevLimit)
          (fun _ _ _ hP hap => appendShard_chained hP hap)
          (fun _ _ _ hP _ => hP)
          indexes 0 { bounds := [], prevLimit := rng.Start, blockLog := [] }
          st rfl hloop
      rw [← hb]
      exact chained_chain hchain

/-- C10: with a nonempty shard-index list, every coordinate range returned by
GenerateReadShards is nonempty — its Start is strictly below its Limit —
because a proposed boundary equal to the previously emitted limit is
discarded rather than emitted as an empty range. -/
theorem generateReadShards_ranges_nonempty (nCPU : Nat)
    (opts : GenerateReadShardsOpts) (indexes : List ShardIndex)
    (bounds : List CoordRange)
    (hne : indexes ≠ [])
    (hok : GenerateReadShards nCPU opts indexes = .ok bounds) :
    ∀ r ∈ bounds, r.Start.LT r.Limit = true := by
  cases hv : ValidateCoordRange opts.Range with
  | error e =>
    simp only [GenerateReadShards, hv] at hok
    cases hok
  | ok rng =>
    obtain ⟨st, hloop, hb⟩ := generateReadShards_ok_cases hv hne hok
    simp only [GenerateReadShardsLoop] at hloop
    have hinv : ∀ r ∈ st.bounds, r.Start.LT r.Limit = true :=
      processIndexes_inv _ _ _ _
        (fun s => ∀ r ∈ s.bounds, r.Start.LT r.Limit = true)
        (fun _ _ _ hP hap => appendShard_nonempty hP hap)
        (fun _ _ _ hP _ => hP)
        indexes 0 { bounds := [], prevLimit := rng.Start, blockLog := [] }
        st (by simp) hloop
    rw [← hb]
    exact hinv

/-- C6: when the shard-index list is empty, GenerateReadShards returns
exactly one coordinate range — the normalized query range — and no error. -/
theorem generateReadShards_empty_indexes (nCPU : Nat)
    (opts : GenerateReadShardsOpts) (rng : CoordRange)
    (hval : ValidateCoordRange opts.Range = .ok rng) :
    GenerateReadShards nCPU opts [] = .ok [rng] := by
  simp only [GenerateReadShards, hval]
  rfl

/-- C1 (amended): when the query range is validated and nonempty, the index
list is nonempty, and the last index's rowshard limit capped at the query
limit equals the query limit, the output of GenerateReadShards partitions
the normalized query range exactly: the ranges are nonempty as a list, the
first starts at the query start, consecutive ranges meet, and the last ends
at the query limit (the Chained predicate). -/
theorem generateReadShards_partition_amended (nCPU : Nat)
    (opts : GenerateReadShardsOpts) (indexes : List ShardIndex)
    (lastIdx : ShardIndex) (rng : CoordRange) (bounds : List CoordRange)
    (hval : ValidateCoordRange opts.Range = .ok rng)
    (hne : indexes ≠ [])
    (hlast : indexes.getLast? = some lastIdx)
    (hcover : lastIdx.Range.Limit.Min rng.Limit = rng.Limit)
    (hnonempty : rng.Start ≠ rng.Limit)
    (hok : GenerateReadShards nCPU opts indexes = .ok bounds) :
    bounds ≠ [] ∧ Chained rng.Start bounds rng.Limit := by
  obtain ⟨st, hloop, hb⟩ := generateReadShards_ok_cases hval hne hok
  simp only [GenerateReadShardsLoop] at hloop
  have hchain : Chained rng.Start st.bounds st.prevLimit :=
    processIndexes_inv _ _ _ _
      (fun s => Chained rng.Start s.bounds s.prevLimit)
      (fun _ _ _ hP hap => appendShard_chained hP hap)
      (fun _ _ _ hP _ => hP)
      indexes 0 { bounds := [], prevLimit := rng.Start, blockLog := [] }
      st rfl hloop
  have hpl := processIndexes_prevLimit _ _ _ _ indexes lastIdx 0 _ st hlast hloop
  rw [hpl, hcover] at hchain
  rw [← hb]
  exact ⟨chained_ne_nil hchain hnonempty, hchain⟩

/-- C2 (amended): under the same coverage hypotheses as the partition
property, GenerateReadShards returns at least one range; the returned count
may fall below the target count (totalBytes/BytesPerShard, or NumShards, or
NumCPU*4) because of the integer block-count threshold and the coord-run
constraints. -/
theorem generateReadShards_count_amended (nCPU : Nat)
    (opts : GenerateReadShardsOpts) (indexes : List ShardIndex)
    (lastIdx : ShardIndex) (rng : CoordRange) (bounds : List CoordRange)
    (hval : ValidateCoordRange opts.Range = .ok rng)
    (hne : indexes ≠ [])
    (hlast : indexes.getLast? = some lastIdx)
    (hcover : lastIdx.Range.Limit.Min rng.Limit = rng.Limit)
    (hnonempty : rng.Start ≠ rng.Limit)
    (hok : GenerateReadShards nCPU opts indexes = .ok bounds) :
    1 ≤ bounds.length := by
  obtain ⟨st, hloop, hb⟩ := generateReadShards_ok_cases hval hne hok
  simp only [GenerateReadShardsLoop] at hloop
  have hchain : Chained rng.Start st.bounds st.prevLimit :=
    processIndexes_inv _ _ _ _
      (fun s => Chained rng.Start s.bounds s.prevLimit)
      (fun _ _ _ hP hap => appendShard_chained hP hap)
      (fun _ _ _ hP _ => hP)
      indexes 0 { bounds := [], prevLimit := rng.Start, blockLog := [] }
      st rfl hloop
  have hpl := processIndexes_prevLimit _ _ _ _ indexes lastIdx 0 _ st hlast hloop
  rw [hpl, hcover] at hchain
  have hnn := chained_ne_nil hchain hnonempty
  rw [← hb]
  exact List.length_pos.mpr hnn

/-- C3: the sharder walk never emits a block-level split boundary inside a
coord run whose split flag is off: with SplitMappedCoords false no logged
block split has its previous block end sharing (RefId, Pos) with the split
address on a mapped (non-UNMAPPED) reference, and with SplitUnmappedCoords
false none does on the UNMAPPED reference. -/
theorem generateReadShardsLoop_coord_run (nCPU : Nat)
    (opts : GenerateReadShardsOpts) (indexes : List ShardIndex)
    (st : SharderState)
    (hok : GenerateReadShardsLoop nCPU opts indexes = .ok st) :
    (opts.SplitMappedCoords = false → ∀ p ∈ st.blockLog,
      ¬((p.1).RefId = (p.2).RefId ∧ (p.1).Pos = (p.2).Pos ∧
        (p.1).RefId ≠ UnmappedRefID)) ∧
    (opts.SplitUnmappedCoords = false → ∀ p ∈ st.blockLog,
      ¬((p.1).RefId = (p.2).RefId ∧ (p.1).Pos = (p.2).Pos ∧
        (p.1).RefId = UnmappedRefID)) := by
  simp only [GenerateReadShardsLoop] at hok
  constructor
  · intro hsm
    exact processLog_inv _ _ _ _
      (fun p => ¬((p.1).RefId = (p.2).RefId ∧ (p.1).Pos = (p.2).Pos ∧
        (p.1).RefId ≠ UnmappedRefID))
      (fun pe la hs => skipSplit_false_mapped hsm hs)
      indexes 0 _ st (by simp) hok
  · intro hsu
    exact processLog_inv _ _ _ _
      (fun p => ¬((p.1).RefId = (p.2).RefId ∧ (p.1).Pos = (p.2).Pos ∧
        (p.1).RefId = UnmappedRefID))
      (fun pe la hs => skipSplit_false_unmapped hsu hs)
      indexes 0 _ st (by simp) hok

/-- C4 (amended): with AlwaysSplitMappedAndUnmappedCoords true and a
NONEMPTY shard-index list, no range returned by GenerateReadShards strictly
straddles the sentinel (UnmappedRefID, 0, 0); the empty-index early return
can still hand back the whole query range in one piece. -/
theorem generateReadShards_always_split_amended (nCPU : Nat)
    (opts : GenerateReadShardsOpts) (indexes : List ShardIndex)
    (bounds : List CoordRange)
    (halways : opts.AlwaysSplitMappedAndUnmappedCoords = true)
    (hne : indexes ≠ [])
    (hok : GenerateReadShards nCPU opts indexes = .ok bounds) :
    ∀ r ∈ bounds,
      ¬(r.Start.LT unmappedStart = true ∧ unmappedStart.LT r.Limit = true) := by
  cases hv : ValidateCoordRange opts.Range with
  | error e =>
    simp only [GenerateReadShards, hv] at hok
    cases hok
  | ok rng =>
    obtain ⟨st, hloop, hb⟩ := generateReadShards_ok_cases hv hne hok
    simp only [GenerateReadShardsLoop] at hloop
    have halways1 : ({ opts with Range := rng } :
        GenerateReadShardsOpts).AlwaysSplitMappedAndUnmappedCoords = true :=
      halways
    have hinv : ∀ r ∈ st.bounds,
        ¬(r.Start.LT unmappedStart = true ∧ unmappedStart.LT r.Limit = true) :=
      processIndexes_inv _ _ _ _
        (fun s => ∀ r ∈ s.bounds,
          ¬(r.Start.LT unmappedStart = true ∧ unmappedStart.LT r.Limit = true))
        (fun _ _ _ hP hap => appendShard_no_straddle halways1 hP hap)
        (fun _ _ _ hP _ => hP)
        indexes 0 { bounds := [], prevLimit := rng.Start, blockLog := [] }
        st (by simp) hloop
    rw [← hb]
    exact hinv

/-- A concrete query range [0:0, 5:0) for the concrete theorems. -/
def exRange05 : CoordRange := ⟨⟨0, 0, 0⟩, ⟨5, 0, 0⟩⟩

/-- A concrete block [0:0, 0:1] at offset 0 with one record. -/
def exBlockA : PAMBlockIndexEntry := ⟨⟨0, 0, 0⟩, ⟨0, 1, 0⟩, 0, 1⟩

/-- A concrete block [0:2, 0:3] at offset 10 with one record. -/
def exBlockB : PAMBlockIndexEntry := ⟨⟨0, 2, 0⟩, ⟨0, 3, 0⟩, 10, 1⟩

/-- A shard index covering only [0:0, 1:0), short of the query limit. -/
def exIdxShort : ShardIndex := ⟨⟨⟨0, 0, 0⟩, ⟨1, 0, 0⟩⟩, 0, [exBlockA]⟩

/-- A shard index covering the whole query range with one block. -/
def exIdxFull : ShardIndex := ⟨exRange05, 0, [exBlockA]⟩

/-- A shard index covering the whole query range with two blocks. -/
def exIdxTwo : ShardIndex := ⟨exRange05, 0, [exBlockA, exBlockB]⟩

/-- Options: query [0:0, 5:0), one target shard. -/
def exOptsN1 : GenerateReadShardsOpts := { Range := exRange05, NumShards := 1 }

/-- Options: query [0:0, 5:0), two target shards. -/
def exOptsN2 : GenerateReadShardsOpts := { Range := exRange05, NumShards := 2 }

/-- Options: query [0:0, 5:0), five target shards. -/
def exOptsN5 : GenerateReadShardsOpts := { Range := exRange05, NumShards := 5 }

/-- Options: universal query range with the always-split flag set. -/
def exOptsAlways : GenerateReadShardsOpts :=
  { AlwaysSplitMappedAndUnmappedCoords := true }

/-- Options with every field at its Go zero value. -/
def exOptsZero : GenerateReadShardsOpts := {}

/-- C1 counterexample: the claim quantifies over every nonempty shard-index
list, but with query range [0:0, 5:0) and a single index covering only
[0:0, 1:0), GenerateReadShards succeeds and its single output range stops at
1:0, short of the query limit — the output does not partition the query
range. -/
theorem generateReadShards_partition_counterexample :
    GenerateReadShards 1 exOptsN1 [exIdxShort] =
      .ok [{ Start := ⟨0, 0, 0⟩, Limit := ⟨1, 0, 0⟩ }] ∧
    ValidateCoordRange exOptsN1.Range = .ok exRange05 ∧
    (⟨1, 0, 0⟩ : Coord) ≠ exRange05.Limit :=
  ⟨rfl, rfl, by decide⟩

/-- C1 witness: the amended partition theorem applied to a concrete input
whose single index reaches the query limit. -/
theorem generateReadShards_partition_amended_witness :
    ([exRange05] : List CoordRange) ≠ [] ∧
    Chained exRange05.Start [exRange05] exRange05.Limit :=
  generateReadShards_partition_amended 1 exOptsN1 [exIdxFull] exIdxFull
    exRange05 [exRange05] rfl (List.cons_ne_nil _ _) rfl rfl (by decide) rfl

/-- C2 counterexample: with NumShards = 2 (and BytesPerShard unset) over one
index of two blocks, GenerateReadShards returns a single range — fewer than
the target shard count — because the integer block-count threshold is never
exceeded. -/
theorem generateReadShards_count_counterexample :
    GenerateReadShards 1 exOptsN2 [exIdxTwo] = .ok [exRange05] ∧
    exOptsN2.BytesPerShard ≤ 0 ∧ exOptsN2.NumShards = 2 ∧
    ([exRange05] : List CoordRange).length < 2 :=
  ⟨rfl, by decide, rfl, by decide⟩

/-- C2 witness: the amended count theorem applied to a concrete input. -/
theorem generateReadShards_count_amended_witness :
    1 ≤ ([exRange05] : List CoordRange).length :=
  generateReadShards_count_amended 1 exOptsN1 [exIdxFull] exIdxFull
    exRange05 [exRange05] rfl (List.cons_ne_nil _ _) rfl rfl (by decide) rfl

/-- C3 witness: the coord-run theorem applied to a run of the sharder that
logged one block-level split, at 0:2 after a block ending at 0:1. -/
theorem generateReadShardsLoop_coord_run_witness :
    ¬((⟨0, 1, 0⟩ : Coord).RefId = (⟨0, 2, 0⟩ : Coord).RefId ∧
      (⟨0, 1, 0⟩ : Coord).Pos = (⟨0, 2, 0⟩ : Coord).Pos ∧
      (⟨0, 1, 0⟩ : Coord).RefId ≠ UnmappedRefID) :=
  (generateReadShardsLoop_coord_run 1 exOptsN5 [exIdxTwo]
      { bounds := [⟨⟨0, 0, 0⟩, ⟨0, 2, 0⟩⟩, ⟨⟨0, 2, 0⟩, ⟨5, 0, 0⟩⟩],
        prevLimit := ⟨5, 0, 0⟩,
        blockLog := [(⟨0, 1, 0⟩, ⟨0, 2, 0⟩)] } rfl).1
    rfl (⟨0, 1, 0⟩, ⟨0, 2, 0⟩) (by simp)

/-- C4 counterexample: with the always-split flag set and an EMPTY index
list, GenerateReadShards returns the whole universal query range as a single
range, and that range strictly straddles the sentinel (UnmappedRefID,0,0) —
so the claim fails as stated for every input. -/
theorem generateReadShards_always_split_counterexample :
    GenerateReadShards 1 exOptsAlways [] = .ok [UniversalRange] ∧
    exOptsAlways.AlwaysSplitMappedAndUnmappedCoords = true ∧
    UniversalRange.Start.LT unmappedStart = true ∧
    unmappedStart.LT UniversalRange.Limit = true :=
  ⟨rfl, rfl, by decide, by decide⟩

/-- C4 witness: the amended always-split theorem applied to a universal-range
query over one index straddling the sentinel; the range below the sentinel
does not straddle it. -/
theorem generateReadShards_always_split_amended_witness :
    ¬((⟨⟨0, 0, 0⟩, unmappedStart⟩ : CoordRange).Start.LT unmappedStart = true ∧
      unmappedStart.LT (⟨⟨0, 0, 0⟩, unmappedStart⟩ : CoordRange).Limit = true) :=
  generateReadShards_always_split_amended 1
    { AlwaysSplitMappedAndUnmappedCoords := true, NumShards := 1 }
    [⟨UniversalRange, 0, [exBlockA]⟩]
    [⟨⟨0, 0, 0⟩, unmappedStart⟩, ⟨unmappedStart, ⟨InfinityRefID, 0, 0⟩⟩]
    rfl (List.cons_ne_nil _ _) rfl
    ⟨⟨0, 0, 0⟩, unmappedStart⟩ (by simp)

/-- C5 witness: the contiguity theorem applied to a run that returns two
ranges meeting at 0:2. -/
theorem generateReadShards_contiguous_witness :
    List.Chain' (fun a b => a.Limit = b.Start)
      [(⟨⟨0, 0, 0⟩, ⟨0, 2, 0⟩⟩ : CoordRange), ⟨⟨0, 2, 0⟩, ⟨5, 0, 0⟩⟩] :=
  generateReadShards_contiguous 1 exOptsN5 [exIdxTwo]
    [⟨⟨0, 0, 0⟩, ⟨0, 2, 0⟩⟩, ⟨⟨0, 2, 0⟩, ⟨5, 0, 0⟩⟩] rfl

/-- C6 witness: the empty-index theorem applied to the zero options, whose
range normalizes to the universal range. -/
theorem generateReadShards_empty_indexes_witness :
    GenerateReadShards 1 exOptsZero [] = .ok [UniversalRange] :=
  generateReadShards_empty_indexes 1 exOptsZero UniversalRange rfl

/-- C10 witness: the nonempty-ranges theorem applied to a concrete run whose
single output range is [0:0, 5:0). -/
theorem generateReadShards_ranges_nonempty_witness :
    exRange05.Start.LT exRange05.Limit = true :=
  generateReadShards_ranges_nonempty 1 exOptsN1 [exIdxFull] [exRange05]
    (List.cons_ne_nil _ _) rfl exRange05 (by simp)

theorem validateBlocks_ok_iff {bs : List PAMBlockIndexEntry} :
    validateBlocks bs = .ok () ↔ ∀ b ∈ bs, 0 < b.NumRecords := by
  induction bs with
  | nil => simp [validateBlocks]
  | cons b rest ih =>
    simp only [validateBlocks]
    by_cases hz : b.NumRecords = 0
    · simp [hz]
    · simp [hz, ih, Nat.pos_of_ne_zero hz]

theorem validateBlocks_error_of_zero {bs : List PAMBlockIndexEntry}
    (h : ∃ b ∈ bs, b.NumRecords = 0) :
    ∃ e, validateBlocks bs = .error e := by
  induction bs with
  | nil => simp at h
  | cons b rest ih =>
    simp only [validateBlocks]
    by_cases hz : b.NumRecords = 0
    · simp [hz]
    · simp only [List.mem_cons] at h
      obtain ⟨b1, hb1, hz1⟩ := h
      rcases hb1 with hb1 | hb1
      · exact absurd (hb1 ▸ hz1) hz
      · simp only [hz, if_false]
        exact ih ⟨b1, hb1, hz1⟩

/-- C9: readFieldIndex returns an error whenever the decoded block table
contains a block with NumRecords = 0, and validateFieldIndex returns nil
exactly when every block has NumRecords > 0. -/
theorem readFieldIndex_zero_records (f : FieldIndexFile)
    (idx : PAMFieldIndex) :
    (f.openRes = .ok () → f.trailer ≠ [] → f.unmarshalRes = .ok idx →
      (∃ b ∈ idx.Blocks, b.NumRecords = 0) →
      ∃ e, readFieldIndex f = .error e) ∧
    (validateFieldIndex idx = .ok () ↔ ∀ b ∈ idx.Blocks, 0 < b.NumRecords) := by
  constructor
  · intro hopen htr hun hz
    obtain ⟨e0, hval⟩ := validateBlocks_error_of_zero hz
    simp only [readFieldIndex, hopen, hun, validateFieldIndex, hval]
    have hlen : ¬f.trailer.length = 0 := by
      simpa [List.length_eq_zero] using htr
    rw [if_neg hlen]
    exact ⟨e0, rfl⟩
  · exact validateBlocks_ok_iff

/-- A concrete block whose record count is zero (a corrupt index entry). -/
def exZeroBlock : PAMBlockIndexEntry := ⟨⟨0, 0, 0⟩, ⟨0, 1, 0⟩, 0, 0⟩

/-- A concrete field index containing the corrupt block. -/
def exBadFieldIdx : PAMFieldIndex := ⟨[exZeroBlock]⟩

/-- A concrete field file that opens, has a trailer, and decodes to the
corrupt field index. -/
def exFieldFileBad : FieldIndexFile :=
  { openRes := .ok (), trailer := [1], unmarshalRes := .ok exBadFieldIdx,
    finishErr := none, closeErr := none }

/-- C9 witness: the zero-record theorem applied to the corrupt field file. -/
theorem readFieldIndex_zero_records_witness :
    ∃ e, readFieldIndex exFieldFileBad = .error e :=
  (readFieldIndex_zero_records exFieldFileBad exBadFieldIdx).1 rfl
    (by decide) rfl ⟨exZeroBlock, by decide, rfl⟩

/-- C8: ReadShardIndex returns an error whenever the decoded shard index's
Magic differs from ShardIndexMagic or its Version differs from
DefaultVersion; conversely every index it returns without error has the
expected Magic and Version. -/
theorem readShardIndex_magic_version (f : ShardIndexFile)
    (idx : PAMShardIndex) :
    (f.openRes = .ok () → f.scanOk = true → f.unmarshalRes = .ok idx →
      (idx.Magic ≠ ShardIndexMagic ∨ idx.Version ≠ DefaultVersion) →
      ∃ e, ReadShardIndex f = .error e) ∧
    (ReadShardIndex f = .ok idx →
      idx.Magic = ShardIndexMagic ∧ idx.Version = DefaultVersion) := by
  constructor
  · intro hopen hscan hun hmm
    simp only [ReadShardIndex, hopen, hscan, hun, Bool.not_true,
      Bool.false_eq_true, if_false]
    by_cases hm : idx.Magic = ShardIndexMagic
    · rcases hmm with hm2 | hv
      · exact absurd hm hm2
      · rw [if_neg (not_not_intro hm), if_pos hv]
        exact ⟨_, rfl⟩
    · rw [if_pos hm]
      exact ⟨_, rfl⟩
  · intro hok
    simp only [ReadShardIndex] at hok
    cases ho : f.openRes with
    | error e => rw [ho] at hok; cases hok
    | ok u =>
      rw [ho] at hok
      simp only at hok
      cases hs : f.scanOk with
      | false =>
        rw [hs] at hok
        simp only [Bool.not_false, if_true, goDeferClose] at hok
        cases hok
      | true =>
        rw [hs] at hok
        simp only [Bool.not_true, Bool.false_eq_true, if_false] at hok
        cases hu : f.unmarshalRes with
        | error e => rw [hu] at hok; simp only [goDeferClose] at hok; cases hok
        | ok index =>
          rw [hu] at hok
          simp only at hok
          by_cases hm : index.Magic ≠ ShardIndexMagic
          · rw [if_pos hm] at hok
            simp only [goDeferClose] at hok
            cases hok
          · rw [if_neg hm] at hok
            by_cases hv : index.Version ≠ DefaultVersion
            · rw [if_pos hv] at hok
              simp only [goDeferClose] at hok
              cases hok
            · rw [if_neg hv] at hok
              cases hr : f.rioErr with
              | some e =>
                rw [hr] at hok
                simp only [goDeferClose] at hok
                cases hok
              | none =>
                rw [hr] at hok
                cases hc : f.closeErr with
                | some e =>
                  rw [hc] at hok
                  simp only [goDeferClose] at hok
                  cases hok
                | none =>
                  rw [hc] at hok
                  simp only [goDeferClose, Except.ok.injEq] at hok
                  rw [← hok]
                  exact ⟨not_not.mp hm, not_not.mp hv⟩

/-- A concrete shard index with a wrong magic number. -/
def exShardIdxBadMagic : PAMShardIndex :=
  { Magic := 0, Version := DefaultVersion,
    Range := UniversalRange, EncodedBamHeader := [] }

/-- A concrete shard-index file that opens, scans, and decodes to the shard
index with the wrong magic number. -/
def exShardFileBad : ShardIndexFile :=
  { openRes := .ok (), scanOk := true, scanErr := "",
    unmarshalRes := .ok exShardIdxBadMagic, rioErr := none, closeErr := none }

/-- C8 witness: the magic/version theorem applied to the file whose decoded
magic number is wrong. -/
theorem readShardIndex_magic_version_witness :
    ∃ e, ReadShardIndex exShardFileBad = .error e :=
  (readShardIndex_magic_version exShardFileBad exShardIdxBadMagic).1
    rfl rfl rfl (Or.inl (by decide))

/-- The exact condition under which readAndSubsetIndexes fails while
processing one index file: its sampled-field index read fails, or blocks
intersecting the query range remain and either their file offsets decrease
or the sampled field size is not positive. -/
def fileErrCond (sizeOf : FileInfo → String → Int)
    (readIdx : FileInfo → String → Except String PAMFieldIndex)
    (recRange : CoordRange) (fields : List String) (f : FileInfo) : Prop :=
  match readIdx f (pickSampledField (sizeOf f) fields).1 with
  | .error _ => True
  | .ok index =>
    match intersectIndexBlocks index.Blocks recRange with
    | [] => False
    | b0 :: brest =>
      b0.FileOffset > (List.getLastD brest b0).FileOffset ∨
      (pickSampledField (sizeOf f) fields).2.1 ≤ 0

/-- C7 (amended): readAndSubsetIndexes returns a non-nil error iff some
input file satisfies fileErrCond — its sampled-field index read fails
(a log.Panicf in the source), or intersecting blocks remain whose offsets
decrease (also a log.Panicf), or the sampled field size is ≤ 0 while
intersecting blocks exist.  In particular an error is NOT equivalent to a
failed index read alone. -/
theorem readAndSubsetIndexes_error_iff (sizeOf : FileInfo → String → Int)
    (readIdx : FileInfo → String → Except String PAMFieldIndex)
    (files : List FileInfo) (recRange : CoordRange) (fields : List String) :
    (∃ e, readAndSubsetIndexes sizeOf readIdx files recRange fields =
      .error e) ↔
    ∃ f ∈ files, fileErrCond sizeOf readIdx recRange fields f := by
  induction files with
  | nil => simp [readAndSubsetIndexes]
  | cons f rest ih =>
    simp only [readAndSubsetIndexes]
    cases hr : readIdx f (pickSampledField (sizeOf f) fields).1 with
    | error e =>
      simp only [List.mem_cons]
      constructor
      · intro _
        exact ⟨f, Or.inl rfl, by simp [fileErrCond, hr]⟩
      · intro _
        exact ⟨_, rfl⟩
    | ok index =>
      dsimp only
      cases hb : intersectIndexBlocks index.Blocks recRange with
      | nil =>
        rw [ih]
        constructor
        · intro ⟨g, hg, hcond⟩
          exact ⟨g, List.mem_cons_of_mem f hg, hcond⟩
        · intro ⟨g, hg, hcond⟩
          rcases List.mem_cons.mp hg with hgf | hg1
          · subst hgf
            simp only [fileErrCond, hr, hb] at hcond
          · exact ⟨g, hg1, hcond⟩
      | cons b0 brest =>
        dsimp only
        by_cases hoff : b0.FileOffset > (List.getLastD brest b0).FileOffset
        · rw [if_pos hoff]
          simp only [List.mem_cons]
          constructor
          · intro _
            refine ⟨f, Or.inl rfl, ?_⟩
            simp only [fileErrCond, hr, hb]
            exact Or.inl hoff
          · intro _
            exact ⟨_, rfl⟩
        · rw [if_neg hoff]
          by_cases hsz : (pickSampledField (sizeOf f) fields).2.1 ≤ 0
          · rw [if_pos hsz]
            simp only [List.mem_cons]
            constructor
            · intro _
              refine ⟨f, Or.inl rfl, ?_⟩
              simp only [fileErrCond, hr, hb]
              exact Or.inr hsz
            · intro _
              exact ⟨_, rfl⟩
          · rw [if_neg hsz]
            cases ht : readAndSubsetIndexes sizeOf readIdx rest recRange
                fields with
            | error e =>
              simp only [List.mem_cons]
              constructor
              · intro _
                have hrest : ∃ e1, readAndSubsetIndexes sizeOf readIdx rest
                    recRange fields = .error e1 := ⟨e, ht⟩
                obtain ⟨g, hg, hcond⟩ := ih.mp hrest
                exact ⟨g, Or.inr hg, hcond⟩
              · intro _
                exact ⟨e, rfl⟩
            | ok tail =>
              simp only [List.mem_cons]
              constructor
              · intro ⟨e1, he1⟩
                cases he1
              · intro ⟨g, hg, hcond⟩
                rcases hg with hgf | hg1
                · subst hgf
                  simp only [fileErrCond, hr, hb] at hcond
                  rcases hcond with hcond | hcond
                  · exact absurd hcond hoff
                  · exact absurd hcond hsz
                · obtain ⟨e1, he1⟩ := ih.mpr ⟨g, hg1, hcond⟩
                  rw [ht] at he1
                  cases he1

/-- A concrete index file for the C7 counterexample. -/
def exFileA : FileInfo := ⟨"d", ⟨⟨0, 0, 0⟩, ⟨1, 0, 0⟩⟩⟩

/-- A concrete readable field index with one block intersecting [0:0, 1:0). -/
def exFieldIdxA : PAMFieldIndex := ⟨[⟨⟨0, 0, 0⟩, ⟨0, 5, 0⟩, 0, 1⟩]⟩

/-- A stat oracle reporting size 0 for every field file. -/
def exSizeZero : FileInfo → String → Int := fun _ _ => 0

/-- A field-index read oracle that always succeeds with exFieldIdxA. -/
def exReadOk : FileInfo → String → Except String PAMFieldIndex :=
  fun _ _ => .ok exFieldIdxA

/-- C7 counterexample: every index read succeeds, yet readAndSubsetIndexes
returns an error (the sampled field size is zero while intersecting blocks
exist) — so a returned error is not equivalent to a failed index read. -/
theorem readAndSubsetIndexes_error_counterexample :
    exReadOk exFileA "aux" = .ok exFieldIdxA ∧
    readAndSubsetIndexes exSizeZero exReadOk [exFileA]
      ⟨⟨0, 0, 0⟩, ⟨1, 0, 0⟩⟩ ["aux"] =
      .error "readandsubsetindexes: seq file size is zero" :=
  ⟨rfl, rfl⟩

end PamVerify
